import Mathlib

/-!
Shallow embedding of the flatbuffer builder pools in `flatbuf/src/pool/`
(`v1.rs`: global locked pool; `v3.rs`: global lock-free pool and the local
pool factory), together with proofs of the pool invariants.

The external `flatbuffers::FlatBufferBuilder` is modelled as an identity
tag (allocation order), the capacity it was allocated with, and its logical
content; `reset` restores the empty logical state.  The external
`crossbeam_queue::ArrayQueue` is modelled from its documented contract: a
bounded FIFO queue whose constructor rejects capacity zero (the Rust
constructor asserts `cap > 0`), whose `push` fails returning the element
when the queue is full, and whose `pop` fails when it is empty.
-/

set_option autoImplicit false

namespace FlatbufPool

/-- Model of the opaque `FlatBufferBuilder`: allocation identity, buffer
capacity chosen at allocation, and logical content. -/
structure FBB where
  id : Nat
  capacity : Nat
  content : List Nat
deriving DecidableEq

/-- Model of `FlatBufferBuilder::new_with_capacity`. A fresh builder has
empty logical content. -/
def FBB.new (cap : Nat) (id : Nat) : FBB :=
  ⟨id, cap, []⟩

/-- Model of `FlatBufferBuilder::reset`: the logical content becomes empty,
identity and allocated capacity are retained. -/
def FBB.reset (b : FBB) : FBB :=
  { b with content := [] }

/-- Model of `crossbeam_queue::ArrayQueue`: a bounded FIFO queue. The list
head is the pop end; `push` appends at the tail. -/
structure ArrayQueue (α : Type) where
  cap : Nat
  items : List α
deriving DecidableEq

/-- Constructor of `ArrayQueue`; the Rust constructor asserts that the
capacity is non-zero, modelled as an `Except.error` (a panic). -/
def ArrayQueue.new (α : Type) (cap : Nat) : Except String (ArrayQueue α) :=
  if cap = 0 then .error "capacity must be non-zero" else .ok ⟨cap, []⟩

/-- Non-blocking bounded push: on a full queue the element is handed back
as the error value and the queue is unchanged. -/
def ArrayQueue.push {α : Type} (q : ArrayQueue α) (x : α) : Except α (ArrayQueue α) :=
  if q.items.length < q.cap then .ok { q with items := q.items ++ [x] } else .error x

/-- Non-blocking pop: fails on an empty queue. -/
def ArrayQueue.pop {α : Type} (q : ArrayQueue α) : Except Unit (α × ArrayQueue α) :=
  match q.items with
  | [] => .error ()
  | x :: rest => .ok (x, { q with cap := q.cap, items := rest })

instance instDecEqExcept {ε α : Type} [DecidableEq ε] [DecidableEq α] :
    DecidableEq (Except ε α)
  | .error a, .error b =>
      if h : a = b then .isTrue (h ▸ rfl) else .isFalse fun he => h (Except.error.inj he)
  | .error _, .ok _ => .isFalse fun he => Except.noConfusion he
  | .ok _, .error _ => .isFalse fun he => Except.noConfusion he
  | .ok a, .ok b =>
      if h : a = b then .isTrue (h ▸ rfl) else .isFalse fun he => h (Except.ok.inj he)

namespace V1

/-- Constant `INIT_POOL_SIZE` of `pool/v1.rs`. -/
def INIT_POOL_SIZE : Nat := 32

/-- Constant `MAX_POOL_SIZE` of `pool/v1.rs`. -/
def MAX_POOL_SIZE : Nat := 1024

/-- Constant `BUFFER_CAPACITY` of `pool/v1.rs`. -/
def BUFFER_CAPACITY : Nat := 64

/-- The handle type `Builder(Option<FlatBufferBuilder>)` of `pool/v1.rs`. -/
structure Builder where
  inner : Option FBB
deriving DecidableEq

/-- `Builder::new` at a given allocation identity: wraps a fresh
`FlatBufferBuilder` with capacity `BUFFER_CAPACITY`. -/
def Builder.newAt (id : Nat) : Builder :=
  ⟨some (FBB.new BUFFER_CAPACITY id)⟩

/-- A builder stored in the pool is clean when its wrapped content is
empty (the reset state). -/
def Builder.clean : Builder → Bool
  | ⟨none⟩ => true
  | ⟨some f⟩ => f.content.isEmpty

/-- State of the global locked pool of `pool/v1.rs`: the `Vec<Builder>`
behind the mutex (list head = the vector's push/pop end) plus the
allocation counter giving fresh builders their identity. -/
structure PoolState where
  pool : List Builder
  nextId : Nat
deriving DecidableEq

/-- The lazily initialized `POOL`: `INIT_POOL_SIZE` freshly constructed
builders pushed in order (vector end = list head). -/
def initState : PoolState :=
  { pool := ((List.range INIT_POOL_SIZE).map Builder.newAt).reverse
    nextId := INIT_POOL_SIZE }

/-- `BuilderPool::get`: lock, pop one idle builder if present, else
allocate a new builder with the configured capacity. -/
def get (s : PoolState) : Builder × PoolState :=
  match s.pool with
  | b :: rest => (b, { s with pool := rest })
  | [] => (Builder.newAt s.nextId, { s with nextId := s.nextId + 1 })

/-- `Drop for Builder`: take the inner builder (if still present), reset
it outside the lock, then lock and push it back only when the pool length
is below `MAX_POOL_SIZE`. -/
def dropBuilder (b : Builder) (s : PoolState) : Builder × PoolState :=
  match b.inner with
  | none => (⟨none⟩, s)
  | some fbb =>
      let fbb := fbb.reset
      if s.pool.length < MAX_POOL_SIZE then
        (⟨none⟩, { s with pool := ⟨some fbb⟩ :: s.pool })
      else
        (⟨none⟩, s)

/-- Events of the locked pool, used to state the lock ordering of
`get` and of the drop glue. -/
inductive Ev where
  | lock
  | unlock
  | popIdle
  | alloc
  | resetB
  | pushIdle
  | useByCaller
deriving DecidableEq

/-- Event trace of `BuilderPool::get` followed by the caller's first use
of the returned builder: the lock guard is dropped when `get` returns,
before the caller touches the builder. -/
def getTrace (s : PoolState) : List Ev :=
  Ev.lock ::
    (match s.pool with
     | _ :: _ => [Ev.popIdle]
     | [] => [Ev.alloc]) ++ [Ev.unlock, Ev.useByCaller]

/-- Event trace of `Drop for Builder`: the reset happens before the lock
is re-acquired, and the push happens only under the capacity check. -/
def dropTrace (b : Builder) (s : PoolState) : List Ev :=
  match b.inner with
  | none => []
  | some _ =>
      Ev.resetB :: Ev.lock ::
        (if s.pool.length < MAX_POOL_SIZE then [Ev.pushIdle] else []) ++ [Ev.unlock]

/-- Reachable states of the locked pool: the initial lazily-filled pool,
closed under `get` and under release of an arbitrary handle (the released
handle may hold arbitrary content, covering every outstanding handle). -/
inductive Reach : PoolState → Prop where
  | init : Reach initState
  | get {s : PoolState} : Reach s → Reach (get s).2
  | release {s : PoolState} (b : Builder) : Reach s → Reach (dropBuilder b s).2

end V1

namespace V3

/-- The handle type `GlobalBuilder(Option<FlatBufferBuilder>)` of
`pool/v3.rs`. -/
structure GlobalBuilder where
  inner : Option FBB
deriving DecidableEq

/-- A global builder stored in the pool is clean when its wrapped content
is empty (the reset state). -/
def GlobalBuilder.clean : GlobalBuilder → Bool
  | ⟨none⟩ => true
  | ⟨some f⟩ => f.content.isEmpty

/-- State of the global lock-free pool of `pool/v3.rs`: the three
`static mut` configuration variables, the lazily initialized `POOL`
(`none` until first forced), and the allocation counter. -/
structure GState where
  initPoolSize : Nat
  maxPoolSize : Nat
  bufferCapacity : Nat
  pool : Option (ArrayQueue GlobalBuilder)
  nextId : Nat
deriving DecidableEq

/-- The initial global state: `INIT_POOL_SIZE = 32`, `MAX_POOL_SIZE =
1_024`, `BUFFER_CAPACITY = 64`, pool not yet initialized. -/
def gInit : GState :=
  { initPoolSize := 32, maxPoolSize := 1024, bufferCapacity := 64
    pool := none, nextId := 0 }

/-- `FlatBufferBuilderPool::init_global_pool_size`: sets the initial size
and raises the maximum to match when it was smaller. -/
def initGlobalPoolSize (size : Nat) (s : GState) : GState :=
  let s := { s with initPoolSize := size }
  if s.maxPoolSize < size then { s with maxPoolSize := size } else s

/-- `FlatBufferBuilderPool::max_global_pool_size`: sets the maximum size
and lowers the initial size to match when it was larger. -/
def maxGlobalPoolSize (size : Nat) (s : GState) : GState :=
  let s := { s with maxPoolSize := size }
  if s.initPoolSize > size then { s with initPoolSize := size } else s

/-- `FlatBufferBuilderPool::global_buffer_capacity`: sets the buffer
capacity used by newly allocated builders. -/
def globalBufferCapacity (capacity : Nat) (s : GState) : GState :=
  { s with bufferCapacity := capacity }

/-- The pre-population loop of the lazy `POOL` initializer: pushes `n`
freshly constructed builders, unwrapping each push (a failed push is the
`unwrap` panic). -/
def prefill (cap : Nat) (startId : Nat) (n : Nat) (q : ArrayQueue GlobalBuilder) :
    Except String (ArrayQueue GlobalBuilder) :=
  match n with
  | 0 => .ok q
  | n + 1 =>
      match q.push ⟨some (FBB.new cap startId)⟩ with
      | .ok q' => prefill cap (startId + 1) n q'
      | .error _ => .error "called unwrap on an Err value"

/-- Forcing the lazy `POOL`: on first use, build an `ArrayQueue` with
capacity `MAX_POOL_SIZE` and pre-populate it with `INIT_POOL_SIZE` fresh
builders; afterwards the queue is fixed. -/
def forcePool (s : GState) : Except String (ArrayQueue GlobalBuilder × GState) :=
  match s.pool with
  | some q => .ok (q, s)
  | none =>
      match ArrayQueue.new GlobalBuilder s.maxPoolSize with
      | .error e => .error e
      | .ok q0 =>
          match prefill s.bufferCapacity s.nextId s.initPoolSize q0 with
          | .error e => .error e
          | .ok q =>
              .ok (q, { s with pool := some q, nextId := s.nextId + s.initPoolSize })

/-- `FlatBufferBuilderPool::get` (global): force the pool, attempt a
non-blocking pop, and on an empty queue allocate a fresh builder whose
capacity is the current value of `BUFFER_CAPACITY`. -/
def globalGet (s : GState) : Except String (GlobalBuilder × GState) :=
  match forcePool s with
  | .error e => .error e
  | .ok (q, s) =>
      match q.pop with
      | .ok (b, q') => .ok (b, { s with pool := some q' })
      | .error _ =>
          .ok (⟨some (FBB.new s.bufferCapacity s.nextId)⟩, { s with nextId := s.nextId + 1 })

/-- `Drop for GlobalBuilder`: take the inner builder (if still present),
reset it, and attempt a non-blocking push into `POOL`; a push on a full
queue hands the builder back and the error is ignored (silent discard). -/
def globalDrop (b : GlobalBuilder) (s : GState) : Except String (GlobalBuilder × GState) :=
  match b.inner with
  | none => .ok (⟨none⟩, s)
  | some fbb =>
      match forcePool s with
      | .error e => .error e
      | .ok (q, s) =>
          match q.push ⟨some fbb.reset⟩ with
          | .ok q' => .ok (⟨none⟩, { s with pool := some q' })
          | .error _ => .ok (⟨none⟩, s)

/-- Reachable states of the global lock-free pool: the initial static
configuration, closed under the three setters, under successful `get`,
and under release of an arbitrary handle. -/
inductive GReach : GState → Prop where
  | init : GReach gInit
  | setInit {s : GState} (n : Nat) : GReach s → GReach (initGlobalPoolSize n s)
  | setMax {s : GState} (n : Nat) : GReach s → GReach (maxGlobalPoolSize n s)
  | setCap {s : GState} (n : Nat) : GReach s → GReach (globalBufferCapacity n s)
  | get {s : GState} {b : GlobalBuilder} {s' : GState} :
      GReach s → globalGet s = .ok (b, s') → GReach s'
  | release {s : GState} (b : GlobalBuilder) {b' : GlobalBuilder} {s' : GState} :
      GReach s → globalDrop b s = .ok (b', s') → GReach s'

/-- The builder-pattern configuration struct `FlatBufferBuilderPool` of
`pool/v3.rs`. -/
structure FlatBufferBuilderPool where
  init : Nat
  max : Nat
  capacity : Nat
deriving DecidableEq

/-- `Default for FlatBufferBuilderPool`: reads the three `static mut`
configuration variables of the given global state. -/
def FlatBufferBuilderPool.defaultFrom (s : GState) : FlatBufferBuilderPool :=
  ⟨s.initPoolSize, s.maxPoolSize, s.bufferCapacity⟩

/-- `FlatBufferBuilderPool::new` with the statics at their initial
values. -/
def FlatBufferBuilderPool.new : FlatBufferBuilderPool :=
  FlatBufferBuilderPool.defaultFrom gInit

/-- `FlatBufferBuilderPool::init_pool_size`: sets the initial local pool
size and raises the maximum to match when it was smaller. -/
def FlatBufferBuilderPool.initPoolSize (self : FlatBufferBuilderPool) (size : Nat) :
    FlatBufferBuilderPool :=
  let self := { self with init := size }
  if self.max < size then { self with max := size } else self

/-- `FlatBufferBuilderPool::max_pool_size`: sets the maximum local pool
size and lowers the initial size to match when it was larger. -/
def FlatBufferBuilderPool.maxPoolSize (self : FlatBufferBuilderPool) (size : Nat) :
    FlatBufferBuilderPool :=
  let self := { self with max := size }
  if self.init > size then { self with init := size } else self

/-- `FlatBufferBuilderPool::buffer_capacity`: sets the buffer capacity
used for newly allocated builders of the local pool. -/
def FlatBufferBuilderPool.bufferCapacity (self : FlatBufferBuilderPool) (capacity : Nat) :
    FlatBufferBuilderPool :=
  { self with capacity := capacity }

/-- The handle type `LocalBuilder` of `pool/v3.rs`: the drained flag, and
the inner `Option<FlatBufferBuilder>`. The weak back-reference to the
owning pool is represented by the `alive` flag of the surrounding world
(the upgrade succeeds exactly while the pool value is live). -/
structure LocalBuilder where
  drained : Bool
  inner : Option FBB
deriving DecidableEq

/-- A local builder stored in the pool is clean when its wrapped content
is empty (the reset state). -/
def LocalBuilder.clean : LocalBuilder → Bool
  | ⟨_, none⟩ => true
  | ⟨_, some f⟩ => f.content.isEmpty

/-- World of one local pool: whether the pool value (the sole strong
`Arc` owner of the queue) is still live, the pool's buffer capacity for
fresh allocations, the bounded queue, and the allocation counter. -/
structure LWorld where
  alive : Bool
  capacity : Nat
  queue : ArrayQueue LocalBuilder
  nextId : Nat
deriving DecidableEq

/-- The pre-population loop of `FlatBufferBuilderPool::build`: pushes `n`
freshly allocated local builders, unwrapping each push. -/
def lprefill (cap : Nat) (startId : Nat) (n : Nat) (q : ArrayQueue LocalBuilder) :
    Except String (ArrayQueue LocalBuilder) :=
  match n with
  | 0 => .ok q
  | n + 1 =>
      match q.push ⟨false, some (FBB.new cap startId)⟩ with
      | .ok q' => lprefill cap (startId + 1) n q'
      | .error _ => .error "called unwrap on an Err value"

/-- `FlatBufferBuilderPool::build`: materialize an `ArrayQueue` with
capacity `self.max` (panics when `self.max = 0`), pre-populated with
`self.init` fresh builders of capacity `self.capacity`. -/
def build (self : FlatBufferBuilderPool) : Except String LWorld :=
  match ArrayQueue.new LocalBuilder self.max with
  | .error e => .error e
  | .ok q0 =>
      match lprefill self.capacity 0 self.init q0 with
      | .error e => .error e
      | .ok q =>
          .ok { alive := true, capacity := self.capacity, queue := q, nextId := self.init }

/-- `LocalFlatBufferBuilderPool::get`: attempt a non-blocking pop; on an
empty queue allocate a fresh builder with the pool's buffer capacity. -/
def lget (w : LWorld) : LocalBuilder × LWorld :=
  match w.queue.pop with
  | .ok (b, q') => (b, { w with queue := q' })
  | .error _ =>
      (⟨false, some (FBB.new w.capacity w.nextId)⟩, { w with nextId := w.nextId + 1 })

/-- `Drop for LocalBuilder`: take the inner builder (if still present);
if the handle is drained, do nothing further (the builder is freed); else
reset it, and only when the weak back-reference upgrades (the pool is
alive) attempt a non-blocking push, ignoring a full-queue error. -/
def ldrop (b : LocalBuilder) (w : LWorld) : LocalBuilder × LWorld :=
  match b.inner with
  | none => ({ b with inner := none }, w)
  | some fbb =>
      if b.drained then ({ b with inner := none }, w)
      else
        let fbb := fbb.reset
        if w.alive then
          match w.queue.push ⟨false, some fbb⟩ with
          | .ok q' => ({ b with inner := none }, { w with queue := q' })
          | .error _ => ({ b with inner := none }, w)
        else ({ b with inner := none }, w)

/-- The drain loop of `Drop for LocalFlatBufferBuilderPool`: while a pop
succeeds, mark the popped builder drained; the popped value is dropped at
the end of the loop body. The fuel is the queue length at entry; the
returned list records each popped builder as it stands after its drop. -/
def teardownLoop (fuel : Nat) (w : LWorld) : LWorld × List LocalBuilder :=
  match fuel with
  | 0 => (w, [])
  | fuel + 1 =>
      match w.queue.pop with
      | .error _ => (w, [])
      | .ok (b, q') =>
          let b := { b with drained := true }
          let (b, w) := ldrop b { w with queue := q' }
          let (w, bs) := teardownLoop fuel w
          (w, b :: bs)

/-- `Drop for LocalFlatBufferBuilderPool`: drain the queue, then the
`Arc` is dropped, after which every weak back-reference fails to
upgrade. -/
def poolDrop (w : LWorld) : LWorld × List LocalBuilder :=
  let r := teardownLoop w.queue.items.length w
  ({ r.1 with alive := false }, r.2)

/-- Reachable worlds of a local pool: any successfully built pool, closed
under `get`, under release of an arbitrary handle, and under pool
teardown. -/
inductive LReach : LWorld → Prop where
  | build (cfg : FlatBufferBuilderPool) {w : LWorld} : build cfg = .ok w → LReach w
  | get {w : LWorld} : LReach w → LReach (lget w).2
  | release {w : LWorld} (b : LocalBuilder) : LReach w → LReach (ldrop b w).2
  | teardown {w : LWorld} : LReach w → LReach (poolDrop w).1

end V3

/-! Helper lemmas about the queue model. -/

theorem ArrayQueue.pop_ok {α : Type} {q q' : ArrayQueue α} {x : α}
    (h : q.pop = .ok (x, q')) : q.items = x :: q'.items ∧ q'.cap = q.cap := by
  unfold ArrayQueue.pop at h
  cases hi : q.items with
  | nil => rw [hi] at h; cases h
  | cons a rest =>
      rw [hi] at h
      simp only [Except.ok.injEq, Prod.mk.injEq] at h
      obtain ⟨rfl, rfl⟩ := h
      simp [hi]

theorem ArrayQueue.push_ok {α : Type} {q q' : ArrayQueue α} {x : α}
    (h : q.push x = .ok q') :
    q'.items = q.items ++ [x] ∧ q'.cap = q.cap ∧ q.items.length < q.cap := by
  unfold ArrayQueue.push at h
  split at h
  · simp only [Except.ok.injEq] at h
    subst h
    simp
    assumption
  · cases h

theorem ArrayQueue.push_err {α : Type} {q : ArrayQueue α} {x y : α}
    (h : q.push x = .error y) : ¬ q.items.length < q.cap := by
  unfold ArrayQueue.push at h
  split at h
  · cases h
  · assumption

/-! Invariants of the v1 locked pool. -/

theorem v1_get_pool (s : V1.PoolState) :
    (V1.get s).2.pool = s.pool ∨
      ∃ a rest, s.pool = a :: rest ∧ (V1.get s).2.pool = rest := by
  cases hp : s.pool with
  | nil => left; simp [V1.get, hp]
  | cons a rest => right; exact ⟨a, rest, rfl, by simp [V1.get, hp]⟩

theorem v1_drop_pool (b0 : V1.Builder) (s : V1.PoolState) :
    (V1.dropBuilder b0 s).2.pool = s.pool ∨
      ∃ fbb, b0.inner = some fbb ∧ s.pool.length < V1.MAX_POOL_SIZE ∧
        (V1.dropBuilder b0 s).2.pool = ⟨some fbb.reset⟩ :: s.pool := by
  cases hi : b0.inner with
  | none => left; simp [V1.dropBuilder, hi]
  | some fbb =>
      by_cases hl : s.pool.length < V1.MAX_POOL_SIZE
      · right; exact ⟨fbb, rfl, hl, by simp [V1.dropBuilder, hi, hl]⟩
      · left; simp [V1.dropBuilder, hi, hl]

theorem v1_reach_clean {s : V1.PoolState} (h : V1.Reach s) :
    ∀ b ∈ s.pool, b.clean = true := by
  induction h with
  | init =>
      intro b hb
      simp only [V1.initState, List.mem_reverse, List.mem_map, List.mem_range] at hb
      obtain ⟨i, _, rfl⟩ := hb
      rfl
  | @get s h ih =>
      intro b hb
      rcases v1_get_pool s with he | ⟨a, rest, hp, he⟩
      · exact ih b (he ▸ hb)
      · exact ih b (hp ▸ List.mem_cons_of_mem a (he ▸ hb))
  | @release s b0 h ih =>
      intro b hb
      rcases v1_drop_pool b0 s with he | ⟨fbb, _, _, he⟩
      · exact ih b (he ▸ hb)
      · rw [he] at hb
        rcases List.mem_cons.mp hb with h1 | h2
        · subst h1; rfl
        · exact ih b h2

theorem v1_reach_len {s : V1.PoolState} (h : V1.Reach s) :
    s.pool.length ≤ V1.MAX_POOL_SIZE := by
  induction h with
  | init => decide
  | @get s h ih =>
      rcases v1_get_pool s with he | ⟨a, rest, hp, he⟩
      · rw [he]; exact ih
      · rw [he]; rw [hp] at ih; simp only [List.length_cons] at ih; omega
  | @release s b0 h ih =>
      rcases v1_drop_pool b0 s with he | ⟨fbb, _, hl, he⟩
      · rw [he]; exact ih
      · rw [he]; simp only [List.length_cons]; omega

/-! Invariants of the v3 global lock-free pool. -/

/-- Queue invariant: every stored builder is clean and the number of
stored builders is bounded by the queue capacity. -/
def V3.GQInv (q : ArrayQueue V3.GlobalBuilder) : Prop :=
  (∀ b ∈ q.items, b.clean = true) ∧ q.items.length ≤ q.cap

/-- State invariant of the global pool: once initialized, the queue
satisfies the queue invariant. -/
def V3.GInv (s : V3.GState) : Prop :=
  ∀ q, s.pool = some q → V3.GQInv q

theorem v3_prefill_inv :
    ∀ (n cap startId : Nat) (q q' : ArrayQueue V3.GlobalBuilder),
      V3.GQInv q → V3.prefill cap startId n q = .ok q' → V3.GQInv q' := by
  intro n
  induction n with
  | zero =>
      intro cap sid q q' hq h
      simp only [V3.prefill, Except.ok.injEq] at h
      subst h
      exact hq
  | succ n ih =>
      intro cap sid q q' hq h
      simp only [V3.prefill] at h
      cases hpush : ArrayQueue.push q ⟨some (FBB.new cap sid)⟩ with
      | error e => rw [hpush] at h; cases h
      | ok q1 =>
          rw [hpush] at h
          obtain ⟨hi, hc, hl⟩ := ArrayQueue.push_ok hpush
          refine ih cap (sid + 1) q1 q' ⟨?_, ?_⟩ h
          · intro b hb
            rw [hi] at hb
            rcases List.mem_append.mp hb with h1 | h2
            · exact hq.1 b h1
            · rw [List.mem_singleton.mp h2]; rfl
          · rw [hi, hc]
            simp only [List.length_append, List.length_singleton]
            omega

theorem v3_forcePool_some {s : V3.GState} {q : ArrayQueue V3.GlobalBuilder}
    (h : s.pool = some q) : V3.forcePool s = .ok (q, s) := by
  simp [V3.forcePool, h]

theorem v3_forcePool_inv {s : V3.GState} {q : ArrayQueue V3.GlobalBuilder} {s' : V3.GState}
    (hs : V3.GInv s) (h : V3.forcePool s = .ok (q, s')) :
    V3.GQInv q ∧ s'.pool = some q := by
  unfold V3.forcePool at h
  cases hp : s.pool with
  | some q0 =>
      rw [hp] at h
      simp only [Except.ok.injEq, Prod.mk.injEq] at h
      obtain ⟨h1, h2⟩ := h
      subst h1
      subst h2
      exact ⟨hs _ hp, hp⟩
  | none =>
      rw [hp] at h
      by_cases hz : s.maxPoolSize = 0
      · simp [ArrayQueue.new, hz] at h
      · simp only [ArrayQueue.new, hz, if_false] at h
        cases hpre : V3.prefill s.bufferCapacity s.nextId s.initPoolSize ⟨s.maxPoolSize, []⟩ with
        | error e => rw [hpre] at h; cases h
        | ok q1 =>
            rw [hpre] at h
            simp only [Except.ok.injEq, Prod.mk.injEq] at h
            obtain ⟨h1, h2⟩ := h
            subst h1
            subst h2
            refine ⟨v3_prefill_inv _ _ _ _ _ ⟨?_, ?_⟩ hpre, rfl⟩
            · intro b hb; cases hb
            · simp

theorem v3_globalGet_inv {s : V3.GState} {b : V3.GlobalBuilder} {s' : V3.GState}
    (hs : V3.GInv s) (h : V3.globalGet s = .ok (b, s')) : V3.GInv s' := by
  unfold V3.globalGet at h
  cases hf : V3.forcePool s with
  | error e => rw [hf] at h; cases h
  | ok p =>
      obtain ⟨q, s1⟩ := p
      rw [hf] at h
      dsimp only at h
      obtain ⟨hq, hp1⟩ := v3_forcePool_inv hs hf
      cases hpop : q.pop with
      | ok r =>
          obtain ⟨b0, q'⟩ := r
          rw [hpop] at h
          simp only [Except.ok.injEq, Prod.mk.injEq] at h
          obtain ⟨h1, h2⟩ := h
          subst h1
          subst h2
          intro q2 hq2
          simp only [Option.some.injEq] at hq2
          subst hq2
          obtain ⟨hi, hc⟩ := ArrayQueue.pop_ok hpop
          refine ⟨?_, ?_⟩
          · intro x hx
            exact hq.1 x (hi ▸ List.mem_cons_of_mem b0 hx)
          · rw [hc]
            have h2 := hq.2
            rw [hi] at h2
            simp only [List.length_cons] at h2
            omega
      | error e =>
          rw [hpop] at h
          simp only [Except.ok.injEq, Prod.mk.injEq] at h
          obtain ⟨h1, h2⟩ := h
          subst h1
          subst h2
          intro q2 hq2
          simp only at hq2
          rw [hp1] at hq2
          simp only [Option.some.injEq] at hq2
          subst hq2
          exact hq

theorem v3_globalDrop_inv {s : V3.GState} {b b' : V3.GlobalBuilder} {s' : V3.GState}
    (hs : V3.GInv s) (h : V3.globalDrop b s = .ok (b', s')) : V3.GInv s' := by
  unfold V3.globalDrop at h
  cases hi : b.inner with
  | none =>
      rw [hi] at h
      simp only [Except.ok.injEq, Prod.mk.injEq] at h
      obtain ⟨h1, h2⟩ := h
      subst h2
      exact hs
  | some fbb =>
      rw [hi] at h
      dsimp only at h
      cases hf : V3.forcePool s with
      | error e => rw [hf] at h; cases h
      | ok p =>
          obtain ⟨q, s1⟩ := p
          rw [hf] at h
          dsimp only at h
          obtain ⟨hq, hp1⟩ := v3_forcePool_inv hs hf
          cases hpush : q.push ⟨some fbb.reset⟩ with
          | ok q' =>
              rw [hpush] at h
              simp only [Except.ok.injEq, Prod.mk.injEq] at h
              obtain ⟨h1, h2⟩ := h
              subst h2
              intro q2 hq2
              simp only [Option.some.injEq] at hq2
              subst hq2
              obtain ⟨hqi, hqc, hql⟩ := ArrayQueue.push_ok hpush
              refine ⟨?_, ?_⟩
              · intro x hx
                rw [hqi] at hx
                rcases List.mem_append.mp hx with hx1 | hx2
                · exact hq.1 x hx1
                · rw [List.mem_singleton.mp hx2]; rfl
              · rw [hqi, hqc]
                simp only [List.length_append, List.length_singleton]
                omega
          | error e =>
              rw [hpush] at h
              simp only [Except.ok.injEq, Prod.mk.injEq] at h
              obtain ⟨h1, h2⟩ := h
              subst h2
              intro q2 hq2
              rw [hp1] at hq2
              simp only [Option.some.injEq] at hq2
              subst hq2
              exact hq

theorem v3_initGlobalPoolSize_frame (n : Nat) (s : V3.GState) :
    (V3.initGlobalPoolSize n s).pool = s.pool ∧
    (V3.initGlobalPoolSize n s).bufferCapacity = s.bufferCapacity ∧
    (V3.initGlobalPoolSize n s).nextId = s.nextId := by
  unfold V3.initGlobalPoolSize
  dsimp only
  split <;> exact ⟨rfl, rfl, rfl⟩

theorem v3_maxGlobalPoolSize_frame (n : Nat) (s : V3.GState) :
    (V3.maxGlobalPoolSize n s).pool = s.pool ∧
    (V3.maxGlobalPoolSize n s).bufferCapacity = s.bufferCapacity ∧
    (V3.maxGlobalPoolSize n s).nextId = s.nextId := by
  unfold V3.maxGlobalPoolSize
  dsimp only
  split <;> exact ⟨rfl, rfl, rfl⟩

theorem v3_gReach_inv {s : V3.GState} (h : V3.GReach s) : V3.GInv s := by
  induction h with
  | init => intro q hq; cases hq
  | @setInit s n h ih =>
      intro q hq
      rw [(v3_initGlobalPoolSize_frame n s).1] at hq
      exact ih q hq
  | @setMax s n h ih =>
      intro q hq
      rw [(v3_maxGlobalPoolSize_frame n s).1] at hq
      exact ih q hq
  | @setCap s n h ih =>
      intro q hq
      exact ih q hq
  | @get s b s' h he ih => exact v3_globalGet_inv ih he
  | @release s b b' s' h he ih => exact v3_globalDrop_inv ih he

/-! Invariants of the v3 local pools. -/

/-- Queue invariant of a local pool. -/
def V3.LQInv (q : ArrayQueue V3.LocalBuilder) : Prop :=
  (∀ b ∈ q.items, b.clean = true) ∧ q.items.length ≤ q.cap

/-- World invariant of a local pool. -/
def V3.LInv (w : V3.LWorld) : Prop :=
  V3.LQInv w.queue

theorem v3_lprefill_inv :
    ∀ (n cap startId : Nat) (q q' : ArrayQueue V3.LocalBuilder),
      V3.LQInv q → V3.lprefill cap startId n q = .ok q' →
      V3.LQInv q' ∧ q'.cap = q.cap := by
  intro n
  induction n with
  | zero =>
      intro cap sid q q' hq h
      simp only [V3.lprefill, Except.ok.injEq] at h
      subst h
      exact ⟨hq, rfl⟩
  | succ n ih =>
      intro cap sid q q' hq h
      simp only [V3.lprefill] at h
      cases hpush : ArrayQueue.push q ⟨false, some (FBB.new cap sid)⟩ with
      | error e => rw [hpush] at h; cases h
      | ok q1 =>
          rw [hpush] at h
          obtain ⟨hi, hc, hl⟩ := ArrayQueue.push_ok hpush
          have hq1 : V3.LQInv q1 := by
            refine ⟨?_, ?_⟩
            · intro b hb
              rw [hi] at hb
              rcases List.mem_append.mp hb with h1 | h2
              · exact hq.1 b h1
              · rw [List.mem_singleton.mp h2]; rfl
            · rw [hi, hc]
              simp only [List.length_append, List.length_singleton]
              omega
          obtain ⟨h1, h2⟩ := ih cap (sid + 1) q1 q' hq1 h
          exact ⟨h1, h2.trans hc⟩

theorem v3_build_inv {cfg : V3.FlatBufferBuilderPool} {w : V3.LWorld}
    (h : V3.build cfg = .ok w) :
    V3.LInv w ∧ w.queue.cap = cfg.max ∧ w.alive = true ∧ w.capacity = cfg.capacity := by
  unfold V3.build at h
  by_cases hz : cfg.max = 0
  · simp [ArrayQueue.new, hz] at h
  · simp only [ArrayQueue.new, hz, if_false] at h
    cases hpre : V3.lprefill cfg.capacity 0 cfg.init ⟨cfg.max, []⟩ with
    | error e => rw [hpre] at h; cases h
    | ok q1 =>
        rw [hpre] at h
        simp only [Except.ok.injEq] at h
        subst h
        obtain ⟨hq1, hc1⟩ := v3_lprefill_inv _ _ _ _ _ ⟨fun b hb => absurd hb (List.not_mem_nil b), by simp⟩ hpre
        exact ⟨hq1, hc1, rfl, rfl⟩

theorem v3_lget_queue (w : V3.LWorld) :
    (V3.lget w).2 = { w with nextId := w.nextId + 1 } ∨
      ∃ a rest, w.queue.items = a :: rest ∧
        (V3.lget w).2 = { w with queue := { w.queue with items := rest } } := by
  cases hi : w.queue.items with
  | nil =>
      have hpop : w.queue.pop = .error () := by simp [ArrayQueue.pop, hi]
      left
      simp [V3.lget, hpop]
  | cons a rest =>
      have hpop : w.queue.pop = .ok (a, { w.queue with items := rest }) := by
        simp [ArrayQueue.pop, hi]
      right
      exact ⟨a, rest, rfl, by simp [V3.lget, hpop]⟩

theorem v3_ldrop_queue (b : V3.LocalBuilder) (w : V3.LWorld) :
    (V3.ldrop b w).2 = w ∨
      ∃ fbb, b.inner = some fbb ∧ b.drained = false ∧ w.alive = true ∧
        w.queue.items.length < w.queue.cap ∧
        (V3.ldrop b w).2 =
          { w with queue :=
              { w.queue with items := w.queue.items ++ [⟨false, some fbb.reset⟩] } } := by
  cases hi : b.inner with
  | none => left; simp [V3.ldrop, hi]
  | some fbb =>
      cases hd : b.drained with
      | true => left; simp [V3.ldrop, hi, hd]
      | false =>
          cases ha : w.alive with
          | false => left; simp [V3.ldrop, hi, hd, ha]
          | true =>
              by_cases hl : w.queue.items.length < w.queue.cap
              · right
                refine ⟨fbb, rfl, rfl, rfl, hl, ?_⟩
                simp [V3.ldrop, hi, hd, ha, ArrayQueue.push, hl]
              · left
                simp [V3.ldrop, hi, hd, ha, ArrayQueue.push, hl]

theorem v3_ldrop_drained (b : V3.LocalBuilder) (w : V3.LWorld) (h : b.drained = true) :
    V3.ldrop b w = ({ b with inner := none }, w) := by
  cases hi : b.inner with
  | none => simp [V3.ldrop, hi]
  | some fbb => simp [V3.ldrop, hi, h]

theorem v3_teardownLoop_spec :
    ∀ (fuel : Nat) (w : V3.LWorld), w.queue.items.length ≤ fuel →
      (V3.teardownLoop fuel w).1 = { w with queue := { w.queue with items := [] } } ∧
      ∀ b ∈ (V3.teardownLoop fuel w).2, b.drained = true ∧ b.inner = none := by
  intro fuel
  induction fuel with
  | zero =>
      intro w hw
      have hi : w.queue.items = [] := List.length_eq_zero.mp (Nat.le_zero.mp hw)
      constructor
      · simp only [V3.teardownLoop]
        rw [← hi]
      · simp [V3.teardownLoop]
  | succ fuel ih =>
      intro w hw
      cases hi : w.queue.items with
      | nil =>
          have hpop : w.queue.pop = .error () := by simp [ArrayQueue.pop, hi]
          constructor
          · simp only [V3.teardownLoop]
            rw [hpop]
            rw [← hi]
          · simp only [V3.teardownLoop]
            rw [hpop]
            intro b hb
            cases hb
      | cons a rest =>
          have hpop : w.queue.pop = .ok (a, { w.queue with items := rest }) := by
            simp [ArrayQueue.pop, hi]
          have hlen : ({ w with queue := { w.queue with items := rest } } : V3.LWorld).queue.items.length ≤ fuel := by
            have hw' := hw
            rw [hi] at hw'
            simp only [List.length_cons] at hw'
            simpa using Nat.le_of_succ_le_succ hw'
          obtain ⟨ih1, ih2⟩ := ih { w with queue := { w.queue with items := rest } } hlen
          have hstep : V3.teardownLoop (fuel + 1) w =
              ((V3.teardownLoop fuel { w with queue := { w.queue with items := rest } }).1,
                { a with drained := true, inner := none } ::
                  (V3.teardownLoop fuel { w with queue := { w.queue with items := rest } }).2) := by
            simp only [V3.teardownLoop]
            rw [hpop]
            dsimp only
            rw [v3_ldrop_drained _ _ rfl]
          constructor
          · rw [hstep]
            exact ih1
          · rw [hstep]
            intro b hb
            rcases List.mem_cons.mp hb with h1 | h2
            · subst h1; exact ⟨rfl, rfl⟩
            · exact ih2 b h2

theorem v3_poolDrop_spec (w : V3.LWorld) :
    (V3.poolDrop w).1 = { w with queue := { w.queue with items := [] }, alive := false } ∧
    ∀ b ∈ (V3.poolDrop w).2, b.drained = true ∧ b.inner = none := by
  obtain ⟨h1, h2⟩ := v3_teardownLoop_spec w.queue.items.length w le_rfl
  unfold V3.poolDrop
  dsimp only
  rw [h1]
  exact ⟨rfl, h2⟩

theorem v3_lReach_inv {w : V3.LWorld} (h : V3.LReach w) : V3.LInv w := by
  induction h with
  | build cfg hb => exact (v3_build_inv hb).1
  | @get w h ih =>
      rcases v3_lget_queue w with he | ⟨a, rest, hi, he⟩
      · rw [V3.LInv, he]; exact ih
      · rw [V3.LInv, he]
        refine ⟨?_, ?_⟩
        · intro b hb
          exact ih.1 b (hi ▸ List.mem_cons_of_mem a hb)
        · have h2 := ih.2
          rw [hi] at h2
          simp only [List.length_cons] at h2
          simp only
          omega
  | @release w b h ih =>
      rcases v3_ldrop_queue b w with he | ⟨fbb, _, _, _, hl, he⟩
      · rw [V3.LInv, he]; exact ih
      · rw [V3.LInv, he]
        refine ⟨?_, ?_⟩
        · intro x hx
          simp only at hx
          rcases List.mem_append.mp hx with hx1 | hx2
          · exact ih.1 x hx1
          · rw [List.mem_singleton.mp hx2]; rfl
        · simp only [List.length_append, List.length_singleton]
          omega
  | @teardown w h ih =>
      rw [V3.LInv, (v3_poolDrop_spec w).1]
      exact ⟨fun b hb => absurd hb (List.not_mem_nil b), by simp⟩

/-! Configuration sequences and observational projections. -/

/-- One configuration call of the builder-pattern interface (or of the
corresponding global setters). -/
inductive V3.CfgOp where
  | setInitSize (n : Nat)
  | setMaxSize (n : Nat)
  | setBufCap (n : Nat)
deriving DecidableEq

/-- Apply one configuration call to a local pool configuration. -/
def V3.applyCfgOp (cfg : V3.FlatBufferBuilderPool) : V3.CfgOp → V3.FlatBufferBuilderPool
  | .setInitSize n => cfg.initPoolSize n
  | .setMaxSize n => cfg.maxPoolSize n
  | .setBufCap n => cfg.bufferCapacity n

/-- Apply one configuration call to the global setters. -/
def V3.applyGlobalOp (s : V3.GState) : V3.CfgOp → V3.GState
  | .setInitSize n => V3.initGlobalPoolSize n s
  | .setMaxSize n => V3.maxGlobalPoolSize n s
  | .setBufCap n => V3.globalBufferCapacity n s

theorem v3_applyCfgOp_le {cfg : V3.FlatBufferBuilderPool} (h : cfg.init ≤ cfg.max)
    (op : V3.CfgOp) : (V3.applyCfgOp cfg op).init ≤ (V3.applyCfgOp cfg op).max := by
  cases op with
  | setInitSize n =>
      by_cases h1 : cfg.max < n
      · simp [V3.applyCfgOp, V3.FlatBufferBuilderPool.initPoolSize, h1]
      · simp [V3.applyCfgOp, V3.FlatBufferBuilderPool.initPoolSize, h1]
        omega
  | setMaxSize n =>
      by_cases h1 : cfg.init > n
      · simp [V3.applyCfgOp, V3.FlatBufferBuilderPool.maxPoolSize, h1]
      · simp [V3.applyCfgOp, V3.FlatBufferBuilderPool.maxPoolSize, h1]
        omega
  | setBufCap n =>
      simpa [V3.applyCfgOp, V3.FlatBufferBuilderPool.bufferCapacity] using h

theorem v3_applyGlobalOp_le {s : V3.GState} (h : s.initPoolSize ≤ s.maxPoolSize)
    (op : V3.CfgOp) :
    (V3.applyGlobalOp s op).initPoolSize ≤ (V3.applyGlobalOp s op).maxPoolSize := by
  cases op with
  | setInitSize n =>
      by_cases h1 : s.maxPoolSize < n
      · simp [V3.applyGlobalOp, V3.initGlobalPoolSize, h1]
      · simp [V3.applyGlobalOp, V3.initGlobalPoolSize, h1]
        omega
  | setMaxSize n =>
      by_cases h1 : s.initPoolSize > n
      · simp [V3.applyGlobalOp, V3.maxGlobalPoolSize, h1]
      · simp [V3.applyGlobalOp, V3.maxGlobalPoolSize, h1]
        omega
  | setBufCap n =>
      simpa [V3.applyGlobalOp, V3.globalBufferCapacity] using h

theorem v3_foldl_cfg_le :
    ∀ (ops : List V3.CfgOp) (cfg : V3.FlatBufferBuilderPool), cfg.init ≤ cfg.max →
      (ops.foldl V3.applyCfgOp cfg).init ≤ (ops.foldl V3.applyCfgOp cfg).max := by
  intro ops
  induction ops with
  | nil => intro cfg h; exact h
  | cons op rest ih => intro cfg h; exact ih _ (v3_applyCfgOp_le h op)

theorem v3_foldl_global_le :
    ∀ (ops : List V3.CfgOp) (s : V3.GState), s.initPoolSize ≤ s.maxPoolSize →
      (ops.foldl V3.applyGlobalOp s).initPoolSize ≤
        (ops.foldl V3.applyGlobalOp s).maxPoolSize := by
  intro ops
  induction ops with
  | nil => intro s h; exact h
  | cons op rest ih => intro s h; exact ih _ (v3_applyGlobalOp_le h op)

theorem v3_prefill_cap :
    ∀ (n cap startId : Nat) (q q' : ArrayQueue V3.GlobalBuilder),
      V3.prefill cap startId n q = .ok q' → q'.cap = q.cap := by
  intro n
  induction n with
  | zero =>
      intro cap sid q q' h
      simp only [V3.prefill, Except.ok.injEq] at h
      subst h
      rfl
  | succ n ih =>
      intro cap sid q q' h
      simp only [V3.prefill] at h
      cases hpush : ArrayQueue.push q ⟨some (FBB.new cap sid)⟩ with
      | error e => rw [hpush] at h; cases h
      | ok q1 =>
          rw [hpush] at h
          obtain ⟨_, hc, _⟩ := ArrayQueue.push_ok hpush
          exact (ih cap (sid + 1) q1 q' h).trans hc

theorem v3_forcePool_cap {s : V3.GState} {q : ArrayQueue V3.GlobalBuilder} {s' : V3.GState}
    (hp : s.pool = none) (h : V3.forcePool s = .ok (q, s')) : q.cap = s.maxPoolSize := by
  unfold V3.forcePool at h
  rw [hp] at h
  by_cases hz : s.maxPoolSize = 0
  · simp [ArrayQueue.new, hz] at h
  · simp only [ArrayQueue.new, hz, if_false] at h
    cases hpre : V3.prefill s.bufferCapacity s.nextId s.initPoolSize ⟨s.maxPoolSize, []⟩ with
    | error e => rw [hpre] at h; cases h
    | ok q1 =>
        rw [hpre] at h
        simp only [Except.ok.injEq, Prod.mk.injEq] at h
        obtain ⟨h1, h2⟩ := h
        subst h1
        exact v3_prefill_cap _ _ _ _ _ hpre

/-- Observable outcome of a global pool operation: the builder handed
out, the queue state, and the allocation counter — the configuration
variables themselves are not observable through the pool interface. -/
def V3.gobs : Except String (V3.GlobalBuilder × V3.GState) →
    Except String (V3.GlobalBuilder × Option (ArrayQueue V3.GlobalBuilder) × Nat)
  | .error e => .error e
  | .ok (b, s) => .ok (b, s.pool, s.nextId)

theorem v3_globalGet_gobs_eq {s t : V3.GState} {q : ArrayQueue V3.GlobalBuilder}
    (hs : s.pool = some q) (ht : t.pool = some q)
    (hcap : t.bufferCapacity = s.bufferCapacity) (hnext : t.nextId = s.nextId) :
    V3.gobs (V3.globalGet t) = V3.gobs (V3.globalGet s) := by
  unfold V3.globalGet
  rw [v3_forcePool_some hs, v3_forcePool_some ht]
  dsimp only
  cases hpop : q.pop with
  | ok r =>
      obtain ⟨b0, q'⟩ := r
      simp [V3.gobs, hnext]
  | error e =>
      simp [V3.gobs, hcap, hnext, hs, ht]

/-! Concrete states used to instantiate the claims. -/

/-- Global state after `init_global_pool_size(0)` followed by the first
`get()` (which lazily initializes the pool with an empty queue of
capacity 1024 and then allocates a fresh builder). -/
def gAfterFirstGet : V3.GState :=
  match V3.globalGet (V3.initGlobalPoolSize 0 V3.gInit) with
  | .ok (_, s) => s
  | .error _ => V3.gInit

/-- Global state after additionally releasing a handle holding content
`[5]`: the builder is reset and pushed back, so the pool holds one clean
builder. -/
def gDemoPool : V3.GState :=
  match V3.globalDrop ⟨some ⟨0, 64, [5]⟩⟩ gAfterFirstGet with
  | .ok (_, s) => s
  | .error _ => gAfterFirstGet

/-- A global state whose queue is full (capacity 1, one stored builder). -/
def gFull : V3.GState :=
  { initPoolSize := 0, maxPoolSize := 1, bufferCapacity := 64
    pool := some ⟨1, [⟨some ⟨0, 64, []⟩⟩]⟩, nextId := 2 }

/-- A local pool configuration with one pre-allocated builder. -/
def lDemoCfg : V3.FlatBufferBuilderPool := ⟨1, 2, 64⟩

/-- The local pool built from `lDemoCfg`. -/
def lDemo : V3.LWorld :=
  match V3.build lDemoCfg with
  | .ok w => w
  | .error _ => ⟨false, 0, ⟨0, []⟩, 0⟩

/-- A local world whose queue is full (capacity 1, one stored builder). -/
def wFull : V3.LWorld :=
  { alive := true, capacity := 64, queue := ⟨1, [⟨false, some ⟨0, 64, []⟩⟩]⟩, nextId := 2 }

/-- A local world whose pool value has been destroyed: weak upgrades fail. -/
def wDead : V3.LWorld :=
  { alive := false, capacity := 64, queue := ⟨2, []⟩, nextId := 0 }

/-! The claims. -/

/-- C1: in every pool variant (locked v1, lock-free global v3, lock-free
local v3) and every reachable pool state, every builder stored idle
inside the pool has empty logical content: builders are reset before
being pushed back on release, and pre-allocated builders are freshly
constructed. -/
theorem c1_idle_builders_are_reset :
    (∀ s : V1.PoolState, V1.Reach s → ∀ b ∈ s.pool, b.clean = true) ∧
    (∀ s : V3.GState, V3.GReach s →
      ∀ q, s.pool = some q → ∀ b ∈ q.items, b.clean = true) ∧
    (∀ w : V3.LWorld, V3.LReach w → ∀ b ∈ w.queue.items, b.clean = true) :=
  ⟨fun _ h => v1_reach_clean h,
   fun _ h q hq => (v3_gReach_inv h q hq).1,
   fun _ h => (v3_lReach_inv h).1⟩

/-- Witness for C1 at concrete reachable states of all three variants. -/
theorem c1_witness :
    (V1.Builder.newAt 0).clean = true ∧
    (⟨some ⟨0, 64, []⟩⟩ : V3.GlobalBuilder).clean = true ∧
    (⟨false, some ⟨0, 64, []⟩⟩ : V3.LocalBuilder).clean = true :=
  ⟨c1_idle_builders_are_reset.1 V1.initState V1.Reach.init (V1.Builder.newAt 0) (by decide),
   c1_idle_builders_are_reset.2.1 gDemoPool
     (V3.GReach.release ⟨some ⟨0, 64, [5]⟩⟩
       (V3.GReach.get (V3.GReach.setInit 0 V3.GReach.init)
         (by decide : V3.globalGet (V3.initGlobalPoolSize 0 V3.gInit) =
           .ok (⟨some (FBB.new 64 0)⟩, gAfterFirstGet)))
       (by decide : V3.globalDrop ⟨some ⟨0, 64, [5]⟩⟩ gAfterFirstGet =
         .ok (⟨none⟩, gDemoPool)))
     ⟨1024, [⟨some ⟨0, 64, []⟩⟩]⟩ (by decide) ⟨some ⟨0, 64, []⟩⟩ (by decide),
   c1_idle_builders_are_reset.2.2 lDemo
     (V3.LReach.build lDemoCfg (by decide)) ⟨false, some ⟨0, 64, []⟩⟩ (by decide)⟩

/-- C2: in every reachable state of every pool variant, the number of
idle builders is at most the configured maximum: the locked pool pushes
only below `MAX_POOL_SIZE`, and the lock-free pools use a bounded queue
whose capacity equals the configured maximum at construction time. -/
theorem c2_pool_size_bounded :
    (∀ s : V1.PoolState, V1.Reach s → s.pool.length ≤ V1.MAX_POOL_SIZE) ∧
    (∀ s : V3.GState, V3.GReach s → ∀ q, s.pool = some q → q.items.length ≤ q.cap) ∧
    (∀ s : V3.GState, ∀ q : ArrayQueue V3.GlobalBuilder, ∀ s' : V3.GState,
      s.pool = none → V3.forcePool s = .ok (q, s') → q.cap = s.maxPoolSize) ∧
    (∀ w : V3.LWorld, V3.LReach w → w.queue.items.length ≤ w.queue.cap) ∧
    (∀ cfg : V3.FlatBufferBuilderPool, ∀ w : V3.LWorld,
      V3.build cfg = .ok w → w.queue.cap = cfg.max) :=
  ⟨fun _ h => v1_reach_len h,
   fun _ h q hq => (v3_gReach_inv h q hq).2,
   fun _ _ _ hp h => v3_forcePool_cap hp h,
   fun _ h => (v3_lReach_inv h).2,
   fun _ _ h => (v3_build_inv h).2.1⟩

/-- Witness for C2 at concrete reachable states of all three variants. -/
theorem c2_witness :
    V1.initState.pool.length ≤ V1.MAX_POOL_SIZE ∧
    (⟨1024, [⟨some ⟨0, 64, []⟩⟩]⟩ : ArrayQueue V3.GlobalBuilder).items.length ≤
      (⟨1024, [⟨some ⟨0, 64, []⟩⟩]⟩ : ArrayQueue V3.GlobalBuilder).cap ∧
    (⟨1024, ([] : List V3.GlobalBuilder)⟩ : ArrayQueue V3.GlobalBuilder).cap =
      (V3.initGlobalPoolSize 0 V3.gInit).maxPoolSize ∧
    lDemo.queue.items.length ≤ lDemo.queue.cap ∧
    lDemo.queue.cap = lDemoCfg.max :=
  ⟨c2_pool_size_bounded.1 V1.initState V1.Reach.init,
   c2_pool_size_bounded.2.1 gDemoPool
     (V3.GReach.release ⟨some ⟨0, 64, [5]⟩⟩
       (V3.GReach.get (V3.GReach.setInit 0 V3.GReach.init)
         (by decide : V3.globalGet (V3.initGlobalPoolSize 0 V3.gInit) =
           .ok (⟨some (FBB.new 64 0)⟩, gAfterFirstGet)))
       (by decide : V3.globalDrop ⟨some ⟨0, 64, [5]⟩⟩ gAfterFirstGet =
         .ok (⟨none⟩, gDemoPool)))
     ⟨1024, [⟨some ⟨0, 64, []⟩⟩]⟩ (by decide),
   c2_pool_size_bounded.2.2.1 (V3.initGlobalPoolSize 0 V3.gInit)
     ⟨1024, ([] : List V3.GlobalBuilder)⟩ ⟨0, 1024, 64, some ⟨1024, []⟩, 0⟩
     (by decide) (by decide),
   c2_pool_size_bounded.2.2.2.1 lDemo (V3.LReach.build lDemoCfg (by decide)),
   c2_pool_size_bounded.2.2.2.2 lDemoCfg lDemo (by decide)⟩

/-- C3: in the lock-free pools, releasing a handle while the bounded
queue is full silently discards the builder: the inner builder is taken
out of the handle, the operation surfaces no error, and the pool state is
left unchanged (no retry). -/
theorem c3_full_queue_silent_discard :
    (∀ s : V3.GState, ∀ q : ArrayQueue V3.GlobalBuilder, ∀ fbb : FBB,
      s.pool = some q → q.items.length = q.cap →
      V3.globalDrop ⟨some fbb⟩ s = .ok (⟨none⟩, s)) ∧
    (∀ w : V3.LWorld, ∀ b : V3.LocalBuilder, ∀ fbb : FBB,
      b.inner = some fbb → b.drained = false → w.alive = true →
      w.queue.items.length = w.queue.cap →
      V3.ldrop b w = ({ b with inner := none }, w)) := by
  constructor
  · intro s q fbb hq hfull
    have hnl : ¬ q.items.length < q.cap := by omega
    simp [V3.globalDrop, v3_forcePool_some hq, ArrayQueue.push, hnl]
  · intro w b fbb hi hd ha hfull
    have hnl : ¬ w.queue.items.length < w.queue.cap := by omega
    simp [V3.ldrop, hi, hd, ha, ArrayQueue.push, hnl]

/-- Witness for C3 on concrete full pools. -/
theorem c3_witness :
    V3.globalDrop ⟨some ⟨5, 64, [1, 2]⟩⟩ gFull = .ok (⟨none⟩, gFull) ∧
    V3.ldrop ⟨false, some ⟨5, 64, [1, 2]⟩⟩ wFull = (⟨false, none⟩, wFull) :=
  ⟨c3_full_queue_silent_discard.1 gFull ⟨1, [⟨some ⟨0, 64, []⟩⟩]⟩ ⟨5, 64, [1, 2]⟩ rfl rfl,
   c3_full_queue_silent_discard.2 wFull ⟨false, some ⟨5, 64, [1, 2]⟩⟩ ⟨5, 64, [1, 2]⟩
     rfl rfl rfl rfl⟩

/-- C4 counterexample: after the first `get()` has initialized the global
pool, calling `global_buffer_capacity(128)` still has an observable
effect — the next `get()` on the empty queue allocates a builder with
capacity 128 where, without the setter, it allocates one with capacity
64. -/
theorem c4_counterexample :
    gAfterFirstGet.pool = some ⟨1024, []⟩ ∧
    V3.globalGet gAfterFirstGet =
      .ok (⟨some ⟨1, 64, []⟩⟩, { gAfterFirstGet with nextId := 2 }) ∧
    V3.globalGet (V3.globalBufferCapacity 128 gAfterFirstGet) =
      .ok (⟨some ⟨1, 128, []⟩⟩,
        { V3.globalBufferCapacity 128 gAfterFirstGet with nextId := 2 }) :=
  ⟨by decide, by decide, by decide⟩

/-- C4 (amended): after the pool's lazy initialization, the initial-size
and maximum-size setters are accepted but have no observable effect on
pool behaviour; the buffer-capacity setter leaves the queue untouched but
does determine the capacity of builders newly allocated by later `get()`
calls. -/
theorem c4_setters_after_first_use :
    ∀ (s : V3.GState) (q : ArrayQueue V3.GlobalBuilder) (n : Nat),
      s.pool = some q →
      (V3.initGlobalPoolSize n s).pool = s.pool ∧
      (V3.maxGlobalPoolSize n s).pool = s.pool ∧
      (V3.globalBufferCapacity n s).pool = s.pool ∧
      V3.gobs (V3.globalGet (V3.initGlobalPoolSize n s)) = V3.gobs (V3.globalGet s) ∧
      V3.gobs (V3.globalGet (V3.maxGlobalPoolSize n s)) = V3.gobs (V3.globalGet s) ∧
      (q.items = [] →
        V3.globalGet (V3.globalBufferCapacity n s) =
          .ok (⟨some (FBB.new n s.nextId)⟩,
            { s with bufferCapacity := n, nextId := s.nextId + 1 })) := by
  intro s q n hq
  obtain ⟨hp1, hc1, hn1⟩ := v3_initGlobalPoolSize_frame n s
  obtain ⟨hp2, hc2, hn2⟩ := v3_maxGlobalPoolSize_frame n s
  refine ⟨hp1, hp2, rfl, ?_, ?_, ?_⟩
  · exact v3_globalGet_gobs_eq hq (hp1.trans hq) hc1 hn1
  · exact v3_globalGet_gobs_eq hq (hp2.trans hq) hc2 hn2
  · intro hitems
    have hpop : q.pop = .error () := by simp [ArrayQueue.pop, hitems]
    have hq' : (V3.globalBufferCapacity n s).pool = some q := hq
    unfold V3.globalGet
    rw [v3_forcePool_some hq']
    dsimp only
    rw [hpop]
    rfl

/-- Witness for C4 (amended) at the concrete state after the first
`get()`. -/
theorem c4_witness :
    V3.gobs (V3.globalGet (V3.initGlobalPoolSize 7 gAfterFirstGet)) =
      V3.gobs (V3.globalGet gAfterFirstGet) ∧
    V3.globalGet (V3.globalBufferCapacity 128 gAfterFirstGet) =
      .ok (⟨some (FBB.new 128 gAfterFirstGet.nextId)⟩,
        { gAfterFirstGet with bufferCapacity := 128, nextId := gAfterFirstGet.nextId + 1 }) :=
  ⟨(c4_setters_after_first_use gAfterFirstGet ⟨1024, []⟩ 7 (by decide)).2.2.2.1,
   (c4_setters_after_first_use gAfterFirstGet ⟨1024, []⟩ 128 (by decide)).2.2.2.2.2 rfl⟩

/-- C5: the release transition fires exactly once per handle: every
release leaves the handle with its inner builder taken out, and a release
of an already-taken handle performs no pool action at all, so a builder
is returned or discarded at most once. -/
theorem c5_release_exactly_once :
    (∀ (b : V1.Builder) (s : V1.PoolState), (V1.dropBuilder b s).1.inner = none) ∧
    (∀ s : V1.PoolState, V1.dropBuilder ⟨none⟩ s = (⟨none⟩, s)) ∧
    (∀ (b : V3.GlobalBuilder) (s s' : V3.GState) (b' : V3.GlobalBuilder),
      V3.globalDrop b s = .ok (b', s') → b'.inner = none) ∧
    (∀ s : V3.GState, V3.globalDrop ⟨none⟩ s = .ok (⟨none⟩, s)) ∧
    (∀ (b : V3.LocalBuilder) (w : V3.LWorld), (V3.ldrop b w).1.inner = none) ∧
    (∀ (b : V3.LocalBuilder) (w : V3.LWorld), b.inner = none →
      V3.ldrop b w = ({ b with inner := none }, w)) := by
  refine ⟨?_, ?_, ?_, ?_, ?_, ?_⟩
  · intro b s
    cases hi : b.inner with
    | none => simp [V1.dropBuilder, hi]
    | some fbb =>
        by_cases hl : s.pool.length < V1.MAX_POOL_SIZE <;> simp [V1.dropBuilder, hi, hl]
  · intro s; rfl
  · intro b s s' b' h
    unfold V3.globalDrop at h
    cases hi : b.inner with
    | none =>
        rw [hi] at h
        simp only [Except.ok.injEq, Prod.mk.injEq] at h
        obtain ⟨h1, _⟩ := h
        exact h1 ▸ rfl
    | some fbb =>
        rw [hi] at h
        dsimp only at h
        cases hf : V3.forcePool s with
        | error e => rw [hf] at h; cases h
        | ok p =>
            obtain ⟨q, s1⟩ := p
            rw [hf] at h
            dsimp only at h
            cases hpush : q.push ⟨some fbb.reset⟩ with
            | ok q' =>
                rw [hpush] at h
                simp only [Except.ok.injEq, Prod.mk.injEq] at h
                obtain ⟨h1, _⟩ := h
                exact h1 ▸ rfl
            | error e =>
                rw [hpush] at h
                simp only [Except.ok.injEq, Prod.mk.injEq] at h
                obtain ⟨h1, _⟩ := h
                exact h1 ▸ rfl
  · intro s; rfl
  · intro b w
    cases hi : b.inner with
    | none => simp [V3.ldrop, hi]
    | some fbb =>
        cases hd : b.drained with
        | true => simp [V3.ldrop, hi, hd]
        | false =>
            cases ha : w.alive with
            | false => simp [V3.ldrop, hi, hd, ha]
            | true =>
                cases hpush : w.queue.push ⟨false, some fbb.reset⟩ with
                | ok q' => simp [V3.ldrop, hi, hd, ha, hpush]
                | error e => simp [V3.ldrop, hi, hd, ha, hpush]
  · intro b w hi
    simp [V3.ldrop, hi]

/-- Witness for C5 on concrete handles and pools. -/
theorem c5_witness :
    (V1.dropBuilder ⟨some ⟨0, 64, []⟩⟩ ⟨[], 0⟩).1.inner = none ∧
    V1.dropBuilder ⟨none⟩ ⟨[], 0⟩ = (⟨none⟩, ⟨[], 0⟩) ∧
    (⟨none⟩ : V3.GlobalBuilder).inner = none ∧
    V3.globalDrop ⟨none⟩ gFull = .ok (⟨none⟩, gFull) ∧
    (V3.ldrop ⟨false, some ⟨0, 64, []⟩⟩ wFull).1.inner = none ∧
    V3.ldrop ⟨false, none⟩ wFull = (⟨false, none⟩, wFull) :=
  ⟨c5_release_exactly_once.1 ⟨some ⟨0, 64, []⟩⟩ ⟨[], 0⟩,
   c5_release_exactly_once.2.1 ⟨[], 0⟩,
   c5_release_exactly_once.2.2.1 ⟨some ⟨9, 64, [1]⟩⟩ gFull gFull ⟨none⟩ (by decide),
   c5_release_exactly_once.2.2.2.1 gFull,
   c5_release_exactly_once.2.2.2.2.1 ⟨false, some ⟨0, 64, []⟩⟩ wFull,
   c5_release_exactly_once.2.2.2.2.2 ⟨false, none⟩ wFull rfl⟩

/-- C6: the builder-pattern configuration maintains initial ≤ maximum
after any sequence of setter calls: raising the initial size above the
maximum raises the maximum to match, lowering the maximum below the
initial lowers the initial to match, and the same coupling holds for the
global setters. -/
theorem c6_init_le_max :
    V3.FlatBufferBuilderPool.new.init ≤ V3.FlatBufferBuilderPool.new.max ∧
    (∀ (cfg : V3.FlatBufferBuilderPool) (n : Nat), cfg.max < n →
      (cfg.initPoolSize n).init = n ∧ (cfg.initPoolSize n).max = n) ∧
    (∀ (cfg : V3.FlatBufferBuilderPool) (n : Nat), n < cfg.init →
      (cfg.maxPoolSize n).max = n ∧ (cfg.maxPoolSize n).init = n) ∧
    (∀ (ops : List V3.CfgOp) (cfg : V3.FlatBufferBuilderPool), cfg.init ≤ cfg.max →
      (ops.foldl V3.applyCfgOp cfg).init ≤ (ops.foldl V3.applyCfgOp cfg).max) ∧
    V3.gInit.initPoolSize ≤ V3.gInit.maxPoolSize ∧
    (∀ (s : V3.GState) (n : Nat), s.maxPoolSize < n →
      (V3.initGlobalPoolSize n s).initPoolSize = n ∧
        (V3.initGlobalPoolSize n s).maxPoolSize = n) ∧
    (∀ (s : V3.GState) (n : Nat), n < s.initPoolSize →
      (V3.maxGlobalPoolSize n s).maxPoolSize = n ∧
        (V3.maxGlobalPoolSize n s).initPoolSize = n) ∧
    (∀ (ops : List V3.CfgOp) (s : V3.GState), s.initPoolSize ≤ s.maxPoolSize →
      (ops.foldl V3.applyGlobalOp s).initPoolSize ≤
        (ops.foldl V3.applyGlobalOp s).maxPoolSize) := by
  refine ⟨by decide, ?_, ?_, v3_foldl_cfg_le, by decide, ?_, ?_, v3_foldl_global_le⟩
  · intro cfg n h
    constructor <;> simp [V3.FlatBufferBuilderPool.initPoolSize, h]
  · intro cfg n h
    constructor <;> simp [V3.FlatBufferBuilderPool.maxPoolSize, h]
  · intro s n h
    constructor <;> simp [V3.initGlobalPoolSize, h]
  · intro s n h
    constructor <;> simp [V3.maxGlobalPoolSize, h]

/-- Witness for C6 on concrete setter sequences. -/
theorem c6_witness :
    ([V3.CfgOp.setInitSize 9, V3.CfgOp.setMaxSize 3, V3.CfgOp.setBufCap 7].foldl
        V3.applyCfgOp V3.FlatBufferBuilderPool.new).init ≤
      ([V3.CfgOp.setInitSize 9, V3.CfgOp.setMaxSize 3, V3.CfgOp.setBufCap 7].foldl
        V3.applyCfgOp V3.FlatBufferBuilderPool.new).max ∧
    ((V3.FlatBufferBuilderPool.new.initPoolSize 2000).init = 2000 ∧
      (V3.FlatBufferBuilderPool.new.initPoolSize 2000).max = 2000) ∧
    ((V3.FlatBufferBuilderPool.new.maxPoolSize 5).max = 5 ∧
      (V3.FlatBufferBuilderPool.new.maxPoolSize 5).init = 5) ∧
    ([V3.CfgOp.setMaxSize 0].foldl V3.applyGlobalOp V3.gInit).initPoolSize ≤
      ([V3.CfgOp.setMaxSize 0].foldl V3.applyGlobalOp V3.gInit).maxPoolSize :=
  ⟨c6_init_le_max.2.2.2.1 [V3.CfgOp.setInitSize 9, V3.CfgOp.setMaxSize 3, V3.CfgOp.setBufCap 7]
     V3.FlatBufferBuilderPool.new (by decide),
   c6_init_le_max.2.1 V3.FlatBufferBuilderPool.new 2000 (by decide),
   c6_init_le_max.2.2.1 V3.FlatBufferBuilderPool.new 5 (by decide),
   c6_init_le_max.2.2.2.2.2.2.2 [V3.CfgOp.setMaxSize 0] V3.gInit (by decide)⟩

/-- C7: contract of the global locked pool: `get` pops one idle builder
under the lock when the pool is non-empty and otherwise allocates a fresh
builder with the configured capacity, releasing the lock before the
caller uses the builder; on release the builder is reset before the lock
is re-acquired, and it is pushed back exactly when the pool length is
below the configured maximum, else dropped. -/
theorem c7_locked_pool_contract :
    ∀ s : V1.PoolState,
      (s.pool = [] →
        V1.get s = (V1.Builder.newAt s.nextId, { s with nextId := s.nextId + 1 }) ∧
        (V1.get s).1 = ⟨some (FBB.new V1.BUFFER_CAPACITY s.nextId)⟩) ∧
      (∀ a rest, s.pool = a :: rest → V1.get s = (a, { s with pool := rest })) ∧
      (V1.getTrace s).indexOf V1.Ev.unlock < (V1.getTrace s).indexOf V1.Ev.useByCaller ∧
      (∀ fbb : FBB,
        (V1.dropTrace ⟨some fbb⟩ s).indexOf V1.Ev.resetB <
          (V1.dropTrace ⟨some fbb⟩ s).indexOf V1.Ev.lock) ∧
      (∀ fbb : FBB,
        (V1.Ev.pushIdle ∈ V1.dropTrace ⟨some fbb⟩ s ↔
          s.pool.length < V1.MAX_POOL_SIZE)) ∧
      (∀ fbb : FBB, s.pool.length < V1.MAX_POOL_SIZE →
        V1.dropBuilder ⟨some fbb⟩ s =
          (⟨none⟩, { s with pool := ⟨some fbb.reset⟩ :: s.pool })) ∧
      (∀ fbb : FBB, ¬ s.pool.length < V1.MAX_POOL_SIZE →
        V1.dropBuilder ⟨some fbb⟩ s = (⟨none⟩, s)) := by
  intro s
  refine ⟨?_, ?_, ?_, ?_, ?_, ?_, ?_⟩
  · intro hp
    exact ⟨by simp [V1.get, hp], by simp [V1.get, hp, V1.Builder.newAt]⟩
  · intro a rest hp
    simp [V1.get, hp]
  · cases hp : s.pool with
    | nil => simp only [V1.getTrace, hp]; decide
    | cons a rest => simp only [V1.getTrace, hp]; decide
  · intro fbb
    by_cases hl : s.pool.length < V1.MAX_POOL_SIZE <;> simp [V1.dropTrace, hl]
  · intro fbb
    by_cases hl : s.pool.length < V1.MAX_POOL_SIZE <;> simp [V1.dropTrace, hl]
  · intro fbb hl
    simp [V1.dropBuilder, hl]
  · intro fbb hl
    simp [V1.dropBuilder, hl]

/-- Witness for C7 at the empty pool state. -/
theorem c7_witness :
    (V1.get ⟨[], 0⟩ = (V1.Builder.newAt 0, ⟨[], 1⟩) ∧
      (V1.get ⟨[], 0⟩).1 = ⟨some (FBB.new V1.BUFFER_CAPACITY 0)⟩) ∧
    V1.dropBuilder ⟨some ⟨0, 64, [9]⟩⟩ ⟨[], 0⟩ = (⟨none⟩, ⟨[⟨some ⟨0, 64, []⟩⟩], 0⟩) :=
  ⟨(c7_locked_pool_contract ⟨[], 0⟩).1 rfl,
   (c7_locked_pool_contract ⟨[], 0⟩).2.2.2.2.2.1 ⟨0, 64, [9]⟩ (by decide)⟩

/-- C8: destroying a local pool pops every idle builder and marks it
drained, so its drop frees the storage without returning it; and an
outstanding handle whose drained flag is set, or whose weak
back-reference no longer resolves, discards its builder instead of
returning it. -/
theorem c8_teardown_and_discard :
    (∀ w : V3.LWorld,
      (V3.poolDrop w).1.queue.items = [] ∧
      (V3.poolDrop w).1.alive = false ∧
      ∀ b ∈ (V3.poolDrop w).2, b.drained = true ∧ b.inner = none) ∧
    (∀ (b : V3.LocalBuilder) (w : V3.LWorld) (fbb : FBB),
      b.inner = some fbb → b.drained = true →
      V3.ldrop b w = ({ b with inner := none }, w)) ∧
    (∀ (b : V3.LocalBuilder) (w : V3.LWorld) (fbb : FBB),
      b.inner = some fbb → w.alive = false →
      V3.ldrop b w = ({ b with inner := none }, w)) := by
  refine ⟨?_, ?_, ?_⟩
  · intro w
    obtain ⟨h1, h2⟩ := v3_poolDrop_spec w
    exact ⟨by rw [h1], by rw [h1], h2⟩
  · intro b w fbb hi hd
    exact v3_ldrop_drained b w hd
  · intro b w fbb hi ha
    cases hd : b.drained with
    | true => exact hd ▸ v3_ldrop_drained b w hd
    | false => simp [V3.ldrop, hi, hd, ha]

/-- Witness for C8 on a concrete local pool, a drained handle, and a
handle whose pool is gone. -/
theorem c8_witness :
    (V3.poolDrop lDemo).1.queue.items = [] ∧
    (V3.poolDrop lDemo).1.alive = false ∧
    V3.ldrop ⟨true, some ⟨7, 64, [1]⟩⟩ lDemo = (⟨true, none⟩, lDemo) ∧
    V3.ldrop ⟨false, some ⟨8, 64, [2]⟩⟩ wDead = (⟨false, none⟩, wDead) :=
  ⟨(c8_teardown_and_discard.1 lDemo).1,
   (c8_teardown_and_discard.1 lDemo).2.1,
   c8_teardown_and_discard.2.1 ⟨true, some ⟨7, 64, [1]⟩⟩ lDemo ⟨7, 64, [1]⟩ rfl rfl,
   c8_teardown_and_discard.2.2 ⟨false, some ⟨8, 64, [2]⟩⟩ wDead ⟨8, 64, [2]⟩ rfl rfl⟩

/-- The local pool configuration of the C9 scenario: initial 0,
maximum 2, buffer capacity 64. -/
def c9cfg : V3.FlatBufferBuilderPool :=
  (V3.FlatBufferBuilderPool.new.initPoolSize 0).maxPoolSize 2

/-- The local pool built from `c9cfg`. -/
def c9w0 : V3.LWorld :=
  match V3.build c9cfg with
  | .ok w => w
  | .error _ => ⟨false, 0, ⟨0, []⟩, 0⟩

/-- C9: for a local pool with initial 0 and maximum 2, the first `get`
allocates a fresh builder (identity 0, allocation counter bumped to 1)
since the pool is empty; after that handle is released (the builder,
which held content `[3]`, is reset and returned), the second `get`
retrieves the same builder instance (identity 0) without allocating (the
counter stays at 1). -/
theorem c9_recycle_scenario :
    c9cfg.init = 0 ∧ c9cfg.max = 2 ∧ c9cfg.capacity = 64 ∧
    V3.build c9cfg = .ok c9w0 ∧
    c9w0.queue.items = [] ∧
    V3.lget c9w0 = (⟨false, some ⟨0, 64, []⟩⟩, { c9w0 with nextId := 1 }) ∧
    V3.ldrop ⟨false, some ⟨0, 64, [3]⟩⟩ { c9w0 with nextId := 1 } =
      (⟨false, none⟩,
        { c9w0 with nextId := 1, queue := ⟨2, [⟨false, some ⟨0, 64, []⟩⟩]⟩ }) ∧
    V3.lget { c9w0 with nextId := 1, queue := ⟨2, [⟨false, some ⟨0, 64, []⟩⟩]⟩ } =
      (⟨false, some ⟨0, 64, []⟩⟩, { c9w0 with nextId := 1, queue := ⟨2, []⟩ }) :=
  ⟨rfl, rfl, rfl, by decide, rfl, by decide, by decide, by decide⟩

/-- The local pool configuration reached by `max_pool_size(0)` from the
defaults: both maximum and initial become 0. -/
def c10cfg : V3.FlatBufferBuilderPool :=
  V3.FlatBufferBuilderPool.new.maxPoolSize 0

/-- C10: a configured maximum of 0 is accepted by the setters (with the
coupling lowering the initial size to 0), but materializing the pool
constructs a bounded queue of capacity 0, which panics — for the local
`build()` as well as for the lazy initialization of the global pool after
`max_global_pool_size(0)`. -/
theorem c10_zero_max_unusable :
    c10cfg.max = 0 ∧ c10cfg.init = 0 ∧
    V3.build c10cfg = .error "capacity must be non-zero" ∧
    (V3.maxGlobalPoolSize 0 V3.gInit).maxPoolSize = 0 ∧
    (V3.maxGlobalPoolSize 0 V3.gInit).initPoolSize = 0 ∧
    V3.globalGet (V3.maxGlobalPoolSize 0 V3.gInit) = .error "capacity must be non-zero" :=
  ⟨rfl, rfl, rfl, rfl, rfl, rfl⟩

end FlatbufPool
